import Mathlib

/-!
Shallow embedding of the vaultify secret-injection tool (src/error.rs,
src/secrets.rs, src/vault.rs, src/process.rs) and proofs about it.

Modelling conventions:
* Rust `String`/`&str` become Lean `String`.  `char::to_ascii_uppercase`
  is `Char.toUpper`, which is exact for every character (both uppercase
  only `a`-`z`).  `char::is_numeric` on the explicit-name capture is
  `Char.isDigit`, exact there because the capture's regex class is
  ASCII-only.  `char::is_whitespace` is `rustIsWhitespace`, the complete
  25-code-point Unicode White_Space set, exact for every character.
  `char::is_alphanumeric` (full Unicode tables) cannot be evaluated in
  Lean, and the KEY capture `.*` does admit non-ASCII characters, so the
  name derivation is parametric in that predicate
  (`SecretSpec.nameWith`); `Char.isAlphanum` is its exact restriction to
  ASCII, and `SecretSpec.name` is that ASCII instantiation, used where
  the inputs at stake are ASCII or the name is only carried through
  unevaluated.
* Fallible Rust functions returning `Result<T, Error>` become
  `Except Error T`.
* The HTTP world is a parameter: a GET endpoint is a function from a
  request (URL plus optional `X-Vault-Token` header) to `Except Error Json`,
  folding together transport errors, non-2xx statuses and JSON parse
  failures exactly as the Rust code folds them into `Error` before the
  field extraction starts.  A POST login endpoint likewise maps URL and
  JSON body to `Except Error Json`.  To let outcomes differ between retry
  attempts, retried operations receive the attempt index.
* `tokio::time::sleep` is recorded in a trace (list of slept delays, in
  milliseconds) instead of actually sleeping, and the number of attempts
  performed is recorded alongside; this instrumentation is what the retry
  claims are stated against.
-/

deriving instance DecidableEq for Except

namespace Vaultify

/-- Library error type, from src/error.rs (the variants used by the embedded
code; the remaining variants of the Rust enum are dead in this crate).
The Rust `Error::IO` variant is spelled `Io` here. -/
inductive Error where
  | Unknown (msg : String)
  | Io (msg : String)
  | Parse (err : String) (lc : Nat) (line : String)
  | NotFound (msg : String)
  | Deserialization (msg : String)
  | Conversion (msg : String)
  | Execution (msg : String)
  | Timeout
  | MaxRetries
  | Reqwest (msg : String)
deriving DecidableEq

/-- `Error::parse` from src/error.rs lines 75-84: stores the 1-based line
number (`lc: line_index + 1`) together with the message and the line text. -/
def Error.parse (err : String) (line_index : Nat) (line : String) : Error :=
  Error.Parse err (line_index + 1) line

/-- Dynamic JSON values, modelling `serde_json::Value`. -/
inductive Json where
  | null
  | bool (b : Bool)
  | num (n : Int)
  | str (s : String)
  | arr (items : List Json)
  | obj (fields : List (String × Json))

/-- First binding of a key in an object's field list, as
`serde_json::Value::get` on maps. -/
def lookupField : List (String × Json) → String → Option Json
  | [], _ => none
  | (k, v) :: rest, key => if k = key then some v else lookupField rest key

/-- `Value::get(key)`: a field lookup that yields `None` on non-objects. -/
def Json.get (j : Json) (key : String) : Option Json :=
  match j with
  | .obj fields => lookupField fields key
  | _ => none

/-- `Value::as_str`: `Some` exactly on JSON strings. -/
def Json.as_str : Json → Option String
  | .str s => some s
  | _ => none

/-- `Option::ok_or_else`: turn `none` into the given error. -/
def ofOption {α : Type} (o : Option α) (e : Error) : Except Error α :=
  match o with
  | some v => .ok v
  | none => .error e

/-- Spec of a secret parsed from a .secrets file, src/secrets.rs lines 16-27.
The Rust field `name` is spelled `name?` so that the derived-name function
below can keep its source name `SecretSpec::name`. -/
structure SecretSpec where
  name? : Option String
  mount : String
  path : String
  secret : String
deriving DecidableEq

/-- `SecretSpec::name` from src/secrets.rs lines 56-83: the configured name,
or a name generated from `path` and `secret` (characters satisfying
`char::is_alphanumeric` are mapped through `to_ascii_uppercase`, every
other character becomes an underscore, the two parts are joined by an
underscore).  Rust's `char::is_alphanumeric` consults the full Unicode
tables, which Lean cannot evaluate, so it is the parameter `isAlnum`;
`to_ascii_uppercase` is `Char.toUpper`, exact for every character. -/
def SecretSpec.nameWith (isAlnum : Char → Bool) (s : SecretSpec) : String :=
  match s.name? with
  | some n => n
  | none =>
    String.mk (s.path.data.map fun c => if isAlnum c then c.toUpper else '_')
      ++ "_"
      ++ String.mk (s.secret.data.map fun c => if isAlnum c then c.toUpper else '_')

/-- `SecretSpec::name` instantiated with `Char.isAlphanum`, the exact ASCII
restriction of Rust's `char::is_alphanumeric`.  This instantiation computes
the same name as the program whenever `path` and `secret` are ASCII (the
regex keeps `path` ASCII; only the KEY capture can be non-ASCII, and the
theorems that evaluate a derived name use ASCII keys or carry the name
through unevaluated). -/
def SecretSpec.name (s : SecretSpec) : String :=
  SecretSpec.nameWith Char.isAlphanum s

/-- A resolved secret, src/secrets.rs lines 29-35. -/
structure Secret where
  name : String
  secret : String
deriving DecidableEq

/-- `Secret::secret_obfuscated`, src/secrets.rs lines 38-41: one mask
character per character of the value. -/
def secret_obfuscated (s : Secret) : String :=
  String.mk (s.secret.data.map fun _ => '*')

/-- The custom `Debug` output of `Secret`, src/secrets.rs lines 44-54. -/
def debugFmt (s : Secret) : String :=
  "Secret \x7b name: \"" ++ s.name ++ "\", secret: \"" ++ secret_obfuscated s ++ "\" \x7d"

/-- Character class `[a-zA-Z0-9_]` of the `name` capture group of `REGEX_V1`
(src/secrets.rs line 11). -/
def isWordChar (c : Char) : Bool := c.isAlphanum || c = '_'

/-- Character class `[a-zA-Z0-9_\-\@]` of the `mount` capture group. -/
def isMountChar (c : Char) : Bool := c.isAlphanum || c = '_' || c = '-' || c = '@'

/-- Character class `[a-zA-Z0-9_\-\/\@]` of the `path` capture group. -/
def isPathChar (c : Char) : Bool :=
  c.isAlphanum || c = '_' || c = '-' || c = '/' || c = '@'

/-- Captures of `REGEX_V1` (src/secrets.rs lines 9-14). -/
structure RegexCaptures where
  name : Option String
  mount : String
  path : String
  secret : String
deriving DecidableEq

/-- Matching of
`^((?<name>[a-zA-Z0-9_]*)=)?((?<mount>[a-zA-Z0-9_\-\@]*)\/)(?<path>[a-zA-Z0-9_\-\/\@]*)#(?<secret>.*)`
against a whole line (no newline inside).  The pattern is anchored at the
start and `.*` runs to the end of the line.  Backtracking never helps this
pattern: none of the three classes contains its follow-up delimiter
(`=` after name, `/` after mount, `#` after path), so each group can only be
the maximal run of its class, and when the optional `name=` group matches,
the alternative of skipping it always fails (the mount run then stops at the
same `=`, which is not `/`).  Matching is therefore the following
deterministic scan. -/
def regexCaptures (line : String) : Option RegexCaptures :=
  let cs := line.data
  let w := cs.takeWhile isWordChar
  let (name, afterName) :=
    match cs.dropWhile isWordChar with
    | '=' :: rest => (some (String.mk w), rest)
    | _ => (none, cs)
  let m := afterName.takeWhile isMountChar
  match afterName.dropWhile isMountChar with
  | '/' :: afterMount =>
    let p := afterMount.takeWhile isPathChar
    match afterMount.dropWhile isPathChar with
    | '#' :: secretChars => some ⟨name, String.mk m, String.mk p, String.mk secretChars⟩
    | _ => none
  | _ => none

/-- Rust `char::is_whitespace`: the Unicode White_Space property, whose
complete extension is these 25 code points - U+0009..U+000D, U+0020,
U+0085 (NEL), U+00A0 (NBSP), U+1680 (Ogham space mark), U+2000..U+200A,
U+2028 (line separator), U+2029 (paragraph separator), U+202F (narrow
no-break space), U+205F (medium mathematical space) and U+3000
(ideographic space).  Exact for every character. -/
def rustIsWhitespace (c : Char) : Bool :=
  let n := c.toNat
  (0x09 ≤ n && n ≤ 0x0D) || n == 0x20 || n == 0x85 || n == 0xA0 || n == 0x1680
    || (0x2000 ≤ n && n ≤ 0x200A)
    || n == 0x2028 || n == 0x2029 || n == 0x202F || n == 0x205F || n == 0x3000

/-- The skip condition of src/secrets.rs line 107:
`line.is_empty() || !line.chars().any(|c| !c.is_whitespace())`. -/
def blankLine (line : String) : Bool :=
  line.data.isEmpty || !(line.data.any fun c => !(rustIsWhitespace c))

/-- The explicit-name validation of src/secrets.rs lines 114-127: a present
capture must be non-empty and must not start with a digit.  Returns the
error message produced, if any. -/
def nameError : Option String → Option String
  | some n =>
    match n.data.head? with
    | some c => if c.isDigit then some "env vars must not start with a number" else none
    | none => some "name cannot be empty"
  | none => none

/-- `lines()` of the Rust standard library: split at `\n`, drop one `\r`
immediately before each `\n`, and do not produce a final empty line for a
trailing newline. -/
def rustLinesGo : List Char → List Char → List String
  | [], acc => if acc.isEmpty then [] else [String.mk acc.reverse]
  | c :: rest, acc =>
    if c = '\n' then
      let acc := if acc.head? = some '\r' then acc.tail else acc
      String.mk acc.reverse :: rustLinesGo rest []
    else rustLinesGo rest (c :: acc)

/-- `contents.lines()` as a list of line strings. -/
def rustLines (s : String) : List String := rustLinesGo s.data []

/-- The loop body of `parse` (src/secrets.rs lines 102-164) over the
remaining lines, carrying the 0-based index `lc` of the next line.  Errors
go through `Error.parse`, which stores `lc + 1`. -/
def parseGo : Nat → List String → Except Error (List SecretSpec)
  | _, [] => .ok []
  | lc, line :: rest =>
    if blankLine line then parseGo (lc + 1) rest
    else
      match regexCaptures line with
      | none => .error (Error.parse "unable to parse line" lc line)
      | some caps =>
        match nameError caps.name with
        | some msg => .error (Error.parse msg lc line)
        | none =>
          if caps.mount.data.isEmpty then .error (Error.parse "mount cannot be empty" lc line)
          else if caps.path.data.isEmpty then .error (Error.parse "path cannot be empty" lc line)
          else if caps.secret.data.isEmpty then .error (Error.parse "secret cannot be empty" lc line)
          else
            match parseGo (lc + 1) rest with
            | .ok specs => .ok (⟨caps.name, caps.mount, caps.path, caps.secret⟩ :: specs)
            | .error e => .error e

/-- `parse` from src/secrets.rs lines 102-164. -/
def parse (contents : String) : Except Error (List SecretSpec) :=
  parseGo 0 (rustLines contents)

/-- Specification-side description of the outcome of one line: `none` when
the line is skipped or yields a secret spec, `some msg` when processing the
line raises the parse error `msg`.  Mirrors the validation order of the
source: name checks, then empty mount, path, secret. -/
def lineError (line : String) : Option String :=
  if blankLine line then none
  else
    match regexCaptures line with
    | none => some "unable to parse line"
    | some caps =>
      match nameError caps.name with
      | some msg => some msg
      | none =>
        if caps.mount.data.isEmpty then some "mount cannot be empty"
        else if caps.path.data.isEmpty then some "path cannot be empty"
        else if caps.secret.data.isEmpty then some "secret cannot be empty"
        else none

/-- Specification-side name derivation, following the words of the spec:
transform each of `path` and `key` character-by-character (alphanumeric to
uppercase, any other character to an underscore) and join the two parts with
a single underscore.  On ASCII characters - the range over which the
amended C5 claim is stated - `Char.isAlphanum` is the alphanumeric
predicate and `Char.toUpper` is the uppercase map, both exactly. -/
def specTransform (c : Char) : Char := if c.isAlphanum then c.toUpper else '_'

/-- Specification-side derived environment-variable name. -/
def derivedNameSpec (path key : String) : String :=
  String.mk (path.data.map specTransform) ++ "_" ++ String.mk (key.data.map specTransform)

/-- A GET request sent by src/vault.rs: the URL and the optional
`X-Vault-Token` header. -/
structure Request where
  url : String
  token : Option String
deriving DecidableEq

/-- A POST request sent by the login flows of src/vault.rs: the URL and the
JSON body (the `Content-Type: application/json` header is always set and is
not modelled separately). -/
structure PostRequest where
  url : String
  body : Json

/-- The instrumented outcome of a `retry` call: the returned value, how many
times the wrapped operation was invoked, and the trace of slept delays. -/
structure RetryResult (T : Type) where
  result : Except Error T
  attempts : Nat
  sleeps : List Nat

/-- The loop of `retry` (src/vault.rs lines 317-334) with `fuel` iterations
left, invoking the operation at attempt index `i`: on success the result is
returned immediately; on failure the error is logged (dropped here), the
fixed delay is slept - also after the final attempt - and the loop
continues; when the iterations are exhausted `Error::MaxRetries` is
returned. -/
def retryRun {T : Type} (op : Nat → Except Error T) (delay : Nat) :
    Nat → Nat → RetryResult T
  | _, 0 => ⟨.error Error.MaxRetries, 0, []⟩
  | i, fuel + 1 =>
    match op i with
    | .ok r => ⟨.ok r, 1, []⟩
    | .error _ =>
      let rest := retryRun op delay (i + 1) fuel
      ⟨rest.result, rest.attempts + 1, delay :: rest.sleeps⟩

/-- `retry` from src/vault.rs lines 317-334: `for _ in 0..=count` performs up
to `count + 1` attempts. -/
def retry {T : Type} (op : Nat → Except Error T) (count : Nat) (delay : Nat) :
    RetryResult T :=
  retryRun op delay 0 (count + 1)

/-- `fetch_single_v2` from src/vault.rs lines 229-274: GET
`{host}/v1/{mount}/data/{path}`, then extract `.data.data.{secret}` as a
string. -/
def fetch_single_v2 (server : Request → Except Error Json) (host : String)
    (vault_token : Option String) (secret_spec : SecretSpec) : Except Error Secret := do
  let vault_url := host ++ "/v1/" ++ secret_spec.mount ++ "/data/" ++ secret_spec.path
  let secret_name := SecretSpec.name secret_spec
  let value ← server ⟨vault_url, vault_token⟩
  let data ← ofOption (value.get "data")
    (Error.NotFound "vault response does not contain .data")
  let data ← ofOption (data.get "data")
    (Error.NotFound "vault response does not contain .data.data")
  let secret_value ← ofOption (data.get secret_spec.secret)
    (Error.NotFound ("vault response does not contain .data.data." ++ secret_spec.secret))
  let secret_value ← ofOption secret_value.as_str
    (Error.Deserialization "vault response secret cannot be made into a string or is empty")
  pure ⟨secret_name, secret_value⟩

/-- `fetch_single_v1` from src/vault.rs lines 276-315: GET
`{host}/v1/{mount}/{path}`, then extract `.data.{secret}` as a string. -/
def fetch_single_v1 (server : Request → Except Error Json) (host : String)
    (vault_token : Option String) (secret_spec : SecretSpec) : Except Error Secret := do
  let vault_url := host ++ "/v1/" ++ secret_spec.mount ++ "/" ++ secret_spec.path
  let secret_name := SecretSpec.name secret_spec
  let value ← server ⟨vault_url, vault_token⟩
  let data ← ofOption (value.get "data")
    (Error.NotFound "vault response does not contain .data")
  let secret_value ← ofOption (data.get secret_spec.secret)
    (Error.NotFound ("vault response does not contain .data." ++ secret_spec.secret))
  let secret_value ← ofOption secret_value.as_str
    (Error.Deserialization "vault response secret cannot be made into a string or is empty")
  pure ⟨secret_name, secret_value⟩

/-- `fetch_single` from src/vault.rs lines 203-227: try the v2 fetch; on any
error (only logged) fall back to the v1 fetch, whose error, if any, is the
one returned. -/
def fetch_single (server : Request → Except Error Json) (host : String)
    (token : Option String) (secret : SecretSpec) : Except Error Secret :=
  match fetch_single_v2 server host token secret with
  | .ok s => .ok s
  | .error _ =>
    match fetch_single_v1 server host token secret with
    | .ok s => .ok s
    | .error e => .error e

/-- Options passed to `fetch_all`, src/vault.rs lines 166-174 (delay in
milliseconds). -/
structure FetchAllOpts where
  retries : Nat
  retry_delay : Nat
  concurrency : Nat

/-- `slice::chunks` with the fuel needed to cover the whole list (Rust panics
on chunk size 0; with `n = 0` the fuel runs out and the model produces
unspecified output, so the theorems assume `0 < n`). -/
def chunksGo {α : Type} (n : Nat) : Nat → List α → List (List α)
  | _, [] => []
  | 0, _ :: _ => []
  | fuel + 1, x :: xs => (x :: xs).take n :: chunksGo n fuel ((x :: xs).drop n)

/-- `secrets.chunks(opts.concurrency)` from src/vault.rs line 185. -/
def chunks {α : Type} (n : Nat) (l : List α) : List (List α) :=
  chunksGo n l.length l

/-- The inner loop of `fetch_all` (src/vault.rs lines 195-197): push each
chunk result, aborting on the first error via `results.push(r?)`. -/
def pushAll (results : List Secret) : List (Except Error Secret) → Except Error (List Secret)
  | [] => .ok results
  | r :: rest =>
    match r with
    | .ok v => pushAll (results ++ [v]) rest
    | .error e => .error e

/-- The chunk loop of `fetch_all` (src/vault.rs lines 185-198):
`futures::future::join_all` runs the per-reference retries of one chunk
concurrently and reassembles their outcomes in input order, which the pure
model renders as `chunk.map fetchres`. -/
def fetchAllGo (fetchres : SecretSpec → Except Error Secret) (results : List Secret) :
    List (List SecretSpec) → Except Error (List Secret)
  | [] => .ok results
  | chunk :: rest =>
    match pushAll results (chunk.map fetchres) with
    | .ok results' => fetchAllGo fetchres results' rest
    | .error e => .error e

/-- `fetch_all` from src/vault.rs lines 176-201.  The server is indexed by
the attempt number so that outcomes may differ between retry attempts. -/
def fetch_all (server : Nat → Request → Except Error Json) (host : String)
    (token : Option String) (secrets : List SecretSpec) (opts : FetchAllOpts) :
    Except Error (List Secret) :=
  fetchAllGo
    (fun s => (retry (fun i => fetch_single (server i) host token s)
      opts.retries opts.retry_delay).result)
    [] (chunks opts.concurrency secrets)

/-- Options passed to `fetch_token`, src/vault.rs lines 27-33. -/
structure FetchTokenOpts where
  retries : Nat
  retry_delay : Nat

/-- Authentication method, src/main.rs lines 58-63. -/
inductive AuthMethod where
  | None
  | GitHub (pat : String)
  | Kubernetes (role : String)
  | Token (token : String)

/-- `fetch_token_github` from src/vault.rs lines 63-109: POST the personal
access token to `{host}/v1/auth/github/login` and extract
`.auth.client_token` as a string. -/
def fetch_token_github (post : PostRequest → Except Error Json) (host : String)
    (pat : String) : Except Error String := do
  let vault_url := host ++ "/v1/auth/github/login"
  let value ← post ⟨vault_url, Json.obj [("token", Json.str pat)]⟩
  let data ← ofOption (value.get "auth")
    (Error.NotFound "vault response does not contain .auth")
  let token ← ofOption (data.get "client_token")
    (Error.NotFound "vault response does not contain .data.client_token")
  let token ← ofOption token.as_str
    (Error.Deserialization "vault response token cannot be made into a string or is empty")
  pure token

/-- `fetch_token_kubernetes` from src/vault.rs lines 111-164: first read the
service-account token file (modelled by `readSaToken`, an `Error.Io` on
failure, as built by the `map_err` on line 117), then POST `{jwt, role}` to
`{host}/v1/auth/kubernetes/login` and extract `.auth.client_token`. -/
def fetch_token_kubernetes (readSaToken : Except Error String)
    (post : PostRequest → Except Error Json) (host : String) (role : String) :
    Except Error String := do
  let jwt ← readSaToken
  let vault_url := host ++ "/v1/auth/kubernetes/login"
  let value ← post ⟨vault_url, Json.obj [("jwt", Json.str jwt), ("role", Json.str role)]⟩
  let data ← ofOption (value.get "auth")
    (Error.NotFound "vault response does not contain .auth")
  let token ← ofOption (data.get "client_token")
    (Error.NotFound "vault response does not contain .data.client_token")
  let token ← ofOption token.as_str
    (Error.Deserialization "vault response token cannot be made into a string or is empty")
  pure token

/-- `fetch_token` from src/vault.rs lines 36-61, instrumented with the retry
trace.  The whole of `fetch_token_github` and `fetch_token_kubernetes` -
including the token-file read of the latter - sits inside the retried
closure; `readSaToken` and `post` are indexed by the attempt number.  The
non-retrying branches report zero attempts and no sleeps. -/
def fetch_token (readSaToken : Nat → Except Error String)
    (post : Nat → PostRequest → Except Error Json) (host : String)
    (auth_method : AuthMethod) (opts : FetchTokenOpts) : RetryResult (Option String) :=
  match auth_method with
  | .None => ⟨.ok none, 0, []⟩
  | .GitHub pat =>
    retry (fun i => (fetch_token_github (post i) host pat).map some)
      opts.retries opts.retry_delay
  | .Kubernetes role =>
    retry (fun i => (fetch_token_kubernetes (readSaToken i) (post i) host role).map some)
      opts.retries opts.retry_delay
  | .Token token => ⟨.ok (some token), 0, []⟩

/-- Additional spawn options, src/process.rs lines 8-17. -/
structure SpawnOptions where
  clear_env : Bool

/-- The secrets loop of `spawn` (src/process.rs lines 74-84): for each
secret build the string `name=value`; warn - recorded here as the secret's
name - when an identical string is already in the environment vector; then
push the string (no entry is ever removed or replaced). -/
def addSecrets (c_env : List String) (warns : List String) :
    List Secret → List String × List String
  | [] => (c_env, warns)
  | s :: rest =>
    let c_var := s.name ++ "=" ++ s.secret
    let warns' := if c_env.any fun e => e = c_var then warns ++ [s.name] else warns
    addSecrets (c_env ++ [c_var]) warns' rest

/-- The environment-construction part of `spawn` (src/process.rs lines
45-84): start from the current environment rendered as `key=value` strings
unless `clear_env` is set, then append the secrets.  Returns the final
environment vector handed to `execvpe` together with the overwrite-warning
trace.  (The conversion of `cmd`/`args` to C strings and the `execvpe` call
itself are not modelled.) -/
def spawnEnv (current_env : List (String × String)) (secrets : List Secret)
    (opts : SpawnOptions) : List String × List String :=
  let c_env := if !opts.clear_env then current_env.map fun kv => kv.1 ++ "=" ++ kv.2 else []
  addSecrets c_env [] secrets

/-- Specification-side warning trace: the names of those secrets whose exact
`name=value` string is already present when they are appended. -/
def warnedNames (c_env : List String) : List Secret → List String
  | [] => []
  | s :: rest =>
    let c_var := s.name ++ "=" ++ s.secret
    (if c_env.any fun e => e = c_var then [s.name] else [])
      ++ warnedNames (c_env ++ [c_var]) rest

/-- Specification-side orchestration: resolve each reference in input order
with the given per-reference resolver, returning the first error, if any. -/
def resolveInOrder (f : SecretSpec → Except Error Secret) :
    List SecretSpec → Except Error (List Secret)
  | [] => .ok []
  | s :: rest =>
    match f s with
    | .error e => .error e
    | .ok v =>
      match resolveInOrder f rest with
      | .error e => .error e
      | .ok vs => .ok (v :: vs)

/-! Helper lemmas about the retry loop. -/

theorem retryRun_exhaust {T : Type} (op : Nat → Except Error T) (delay : Nat) :
    ∀ fuel i, (∀ k, k < fuel → ∃ e, op (i + k) = .error e) →
      retryRun op delay i fuel = ⟨.error Error.MaxRetries, fuel, List.replicate fuel delay⟩ := by
  intro fuel
  induction fuel with
  | zero => intro i _; rfl
  | succ n ih =>
    intro i h
    obtain ⟨e, he⟩ := h 0 (Nat.succ_pos n)
    have he' : op i = .error e := by simpa using he
    have hrec := ih (i + 1) fun k hk => by
      obtain ⟨e', he''⟩ := h (k + 1) (Nat.succ_lt_succ hk)
      exact ⟨e', by rw [show i + 1 + k = i + (k + 1) by omega]; exact he''⟩
    simp [retryRun, he', hrec, List.replicate_succ]

theorem retryRun_success {T : Type} (op : Nat → Except Error T) (delay : Nat) :
    ∀ j fuel i v, j < fuel → op (i + j) = .ok v →
      (∀ k, k < j → ∃ e, op (i + k) = .error e) →
      retryRun op delay i fuel = ⟨.ok v, j + 1, List.replicate j delay⟩ := by
  intro j
  induction j with
  | zero =>
    intro fuel i v hf hok _
    obtain ⟨f, rfl⟩ := Nat.exists_eq_succ_of_ne_zero (Nat.pos_iff_ne_zero.mp hf)
    have hok' : op i = .ok v := by simpa using hok
    simp [retryRun, hok']
  | succ n ih =>
    intro fuel i v hf hok hpre
    obtain ⟨f, rfl⟩ := Nat.exists_eq_succ_of_ne_zero
      (Nat.pos_iff_ne_zero.mp (Nat.lt_of_le_of_lt (Nat.zero_le _) hf))
    obtain ⟨e, he⟩ := hpre 0 (Nat.succ_pos n)
    have he' : op i = .error e := by simpa using he
    have hrec := ih f (i + 1) v (Nat.lt_of_succ_lt_succ hf)
      (by rw [show i + 1 + n = i + (n + 1) by omega]; exact hok)
      (fun k hk => by
        obtain ⟨e', he''⟩ := hpre (k + 1) (Nat.succ_lt_succ hk)
        exact ⟨e', by rw [show i + 1 + k = i + (k + 1) by omega]; exact he''⟩)
    simp [retryRun, he', hrec, List.replicate_succ]

theorem retryRun_error_eq {T : Type} (op : Nat → Except Error T) (delay : Nat) :
    ∀ fuel i e, (retryRun op delay i fuel).result = .error e → e = Error.MaxRetries := by
  intro fuel
  induction fuel with
  | zero =>
    intro i e h
    simpa [retryRun] using h.symm
  | succ n ih =>
    intro i e h
    cases hop : op i with
    | ok v => simp [retryRun, hop] at h
    | error e' =>
      apply ih (i + 1)
      simpa [retryRun, hop] using h

/-- C3: wrapped in the retry helper with configured count `count` and fixed
delay `delay`, an operation failing on every attempt is attempted exactly
`count + 1` times, with the fixed delay slept after each failed attempt (in
particular between any two consecutive attempts, with no backoff growth),
and the helper then returns the `Error.MaxRetries` ("max number of retries
reached") error; an operation first succeeding at attempt `j` has its result
returned immediately after `j + 1` attempts. -/
theorem retry_attempt_count {T : Type} (op : Nat → Except Error T) (count delay : Nat) :
    ((∀ i, i ≤ count → ∃ e, op i = .error e) →
      retry op count delay =
        ⟨.error Error.MaxRetries, count + 1, List.replicate (count + 1) delay⟩)
  ∧ (∀ j v, j ≤ count → op j = .ok v → (∀ i, i < j → ∃ e, op i = .error e) →
      retry op count delay = ⟨.ok v, j + 1, List.replicate j delay⟩) := by
  constructor
  · intro h
    exact retryRun_exhaust op delay (count + 1) 0 fun k hk => by
      simpa using h k (Nat.lt_succ_iff.mp hk)
  · intro j v hj hok hpre
    exact retryRun_success op delay j (count + 1) 0 v (Nat.lt_succ_of_le hj)
      (by simpa using hok) (fun k hk => by simpa using hpre k hk)

/-- Witness for `retry_attempt_count` at a concrete always-failing operation
with `count = 1`, `delay = 7`: two attempts, two sleeps of 7, retries
exhausted. -/
theorem retry_attempt_count_witness :
    retry (fun _ => (.error (Error.Unknown "boom") : Except Error Nat)) 1 7 =
      ⟨.error Error.MaxRetries, 2, [7, 7]⟩ := by
  have h := (retry_attempt_count (fun _ => (.error (Error.Unknown "boom") : Except Error Nat))
    1 7).1 (fun i _ => ⟨Error.Unknown "boom", rfl⟩)
  simpa using h

/-! Helper lemmas about the orchestration of `fetch_all`. -/

theorem pushAll_map (f : SecretSpec → Except Error Secret) :
    ∀ (chunk : List SecretSpec) (results : List Secret),
      pushAll results (chunk.map f) =
        match resolveInOrder f chunk with
        | .ok vs => .ok (results ++ vs)
        | .error e => .error e := by
  intro chunk
  induction chunk with
  | nil => intro results; simp [pushAll, resolveInOrder]
  | cons s rest ih =>
    intro results
    cases hs : f s with
    | error e => simp [pushAll, resolveInOrder, hs]
    | ok v =>
      have := ih (results ++ [v])
      cases hr : resolveInOrder f rest with
      | error e => simp_all [pushAll, resolveInOrder, hs, hr]
      | ok vs => simp_all [pushAll, resolveInOrder, hs, hr]

theorem resolveInOrder_append (f : SecretSpec → Except Error Secret) :
    ∀ (a b : List SecretSpec),
      resolveInOrder f (a ++ b) =
        match resolveInOrder f a with
        | .error e => .error e
        | .ok va =>
          match resolveInOrder f b with
          | .error e => .error e
          | .ok vb => .ok (va ++ vb) := by
  intro a
  induction a with
  | nil =>
    intro b
    cases hb : resolveInOrder f b <;> simp [resolveInOrder, hb]
  | cons s rest ih =>
    intro b
    cases hs : f s with
    | error e => simp [resolveInOrder, hs]
    | ok v =>
      have := ih b
      cases hr : resolveInOrder f rest with
      | error e => simp_all [resolveInOrder, hs, hr]
      | ok vs =>
        cases hb : resolveInOrder f b <;> simp_all [resolveInOrder, hs, hr, hb]

theorem fetchAllGo_chunksGo (f : SecretSpec → Except Error Secret) (n : Nat)
    (hn : 0 < n) :
    ∀ (fuel : Nat) (l : List SecretSpec) (results : List Secret), l.length ≤ fuel →
      fetchAllGo f results (chunksGo n fuel l) =
        match resolveInOrder f l with
        | .ok vs => .ok (results ++ vs)
        | .error e => .error e := by
  intro fuel
  induction fuel with
  | zero =>
    intro l results hl
    have : l = [] := List.length_eq_zero.mp (Nat.le_zero.mp hl)
    subst this
    simp [chunksGo, fetchAllGo, resolveInOrder]
  | succ m ih =>
    intro l results hl
    cases l with
    | nil => simp [chunksGo, fetchAllGo, resolveInOrder]
    | cons x xs =>
      have hsplit : (x :: xs).take n ++ (x :: xs).drop n = x :: xs :=
        List.take_append_drop n (x :: xs)
      have hlen : ((x :: xs).drop n).length ≤ m := by
        simp only [List.length_drop]
        have : (x :: xs).length ≤ m + 1 := hl
        have hpos : 0 < (x :: xs).length := by simp
        omega
      have happ := resolveInOrder_append f ((x :: xs).take n) ((x :: xs).drop n)
      rw [hsplit] at happ
      simp only [chunksGo, fetchAllGo, pushAll_map f]
      cases ht : resolveInOrder f ((x :: xs).take n) with
      | error e => rw [happ, ht]
      | ok va =>
        show fetchAllGo f (results ++ va) (chunksGo n m ((x :: xs).drop n)) = _
        rw [ih ((x :: xs).drop n) (results ++ va) hlen, happ, ht]
        cases hd : resolveInOrder f ((x :: xs).drop n) with
        | error e => simp [hd]
        | ok vb => simp [hd, List.append_assoc]

theorem resolveInOrder_all_ok (f : SecretSpec → Except Error Secret)
    (v : SecretSpec → Secret) :
    ∀ l : List SecretSpec, (∀ s, s ∈ l → f s = .ok (v s)) →
      resolveInOrder f l = .ok (l.map v) := by
  intro l
  induction l with
  | nil => intro _; rfl
  | cons s rest ih =>
    intro h
    have hs := h s (List.mem_cons_self s rest)
    have hr := ih fun x hx => h x (List.mem_cons_of_mem s hx)
    simp [resolveInOrder, hs, hr]

theorem resolveInOrder_maxretries (f : SecretSpec → Except Error Secret)
    (hall : ∀ x e, f x = .error e → e = Error.MaxRetries) :
    ∀ (l : List SecretSpec) (x : SecretSpec), x ∈ l → f x = .error Error.MaxRetries →
      resolveInOrder f l = .error Error.MaxRetries := by
  intro l
  induction l with
  | nil => intro x hx; cases hx
  | cons y rest ih =>
    intro x hx hfx
    cases hy : f y with
    | error e =>
      have := hall y e hy
      subst this
      simp [resolveInOrder, hy]
    | ok v =>
      have hxrest : x ∈ rest := by
        rcases List.mem_cons.mp hx with rfl | hmem
        · rw [hy] at hfx; cases hfx
        · exact hmem
      have := ih x hxrest hfx
      simp [resolveInOrder, hy, this]

/-- C1 (amended): `fetch_all` resolves the references strictly in input
order - chunking by `concurrency` is semantically invisible, each reference
being resolved by its own retry-wrapped `fetch_single` - so when every
reference resolves, the output is the list of resolved secrets in exactly
the input order; and when any reference exhausts its retries, `fetch_all`
returns an error (no partial result), namely the generic
`Error.MaxRetries` marker - not that reference's last underlying error,
which the retry helper only logs. -/
theorem fetch_all_in_order (server : Nat → Request → Except Error Json)
    (host : String) (token : Option String) (secrets : List SecretSpec)
    (retries delay concurrency : Nat) (hc : 0 < concurrency) :
    fetch_all server host token secrets ⟨retries, delay, concurrency⟩ =
      resolveInOrder
        (fun s => (retry (fun i => fetch_single (server i) host token s) retries delay).result)
        secrets
  ∧ (∀ v : SecretSpec → Secret,
      (∀ s, s ∈ secrets →
        (retry (fun i => fetch_single (server i) host token s) retries delay).result
          = .ok (v s)) →
      fetch_all server host token secrets ⟨retries, delay, concurrency⟩ =
        .ok (secrets.map v))
  ∧ (∀ s, s ∈ secrets →
      (∀ i, i ≤ retries → ∃ e, fetch_single (server i) host token s = .error e) →
      fetch_all server host token secrets ⟨retries, delay, concurrency⟩ =
        .error Error.MaxRetries) := by
  have hmain :
      fetch_all server host token secrets ⟨retries, delay, concurrency⟩ =
        resolveInOrder
          (fun s => (retry (fun i => fetch_single (server i) host token s) retries delay).result)
          secrets := by
    unfold fetch_all chunks
    rw [fetchAllGo_chunksGo _ concurrency hc secrets.length secrets [] (Nat.le_refl _)]
    cases hr : resolveInOrder
        (fun s => (retry (fun i => fetch_single (server i) host token s) retries delay).result)
        secrets with
    | error e => rfl
    | ok vs => simp
  refine ⟨hmain, ?_, ?_⟩
  · intro v hv
    rw [hmain]
    exact resolveInOrder_all_ok _ v secrets hv
  · intro s hs hfail
    rw [hmain]
    have hallerr : ∀ x e,
        (retry (fun i => fetch_single (server i) host token x) retries delay).result
          = .error e → e = Error.MaxRetries :=
      fun x e hx => retryRun_error_eq _ delay (retries + 1) 0 e hx
    have hfs : (retry (fun i => fetch_single (server i) host token s) retries delay).result
        = .error Error.MaxRetries := by
      show (retryRun _ delay 0 (retries + 1)).result = _
      rw [retryRun_exhaust _ delay (retries + 1) 0
        (fun k hk => by simpa using hfail k (Nat.lt_succ_iff.mp hk))]
    exact resolveInOrder_maxretries _ hallerr secrets s hs hfs

/-- Witness for `fetch_all_in_order`: the order-preservation equation at a
concrete server that always fails, one reference, `concurrency = 1`. -/
theorem fetch_all_in_order_witness :
    fetch_all (fun _ _ => .error (Error.NotFound "nope")) "h" none
        [⟨none, "m", "p", "k"⟩] ⟨0, 0, 1⟩ =
      resolveInOrder
        (fun s => (retry (fun i => fetch_single ((fun _ _ => .error (Error.NotFound "nope")) i)
          "h" none s) 0 0).result)
        [⟨none, "m", "p", "k"⟩] :=
  (fetch_all_in_order (fun _ _ => .error (Error.NotFound "nope")) "h" none
    [⟨none, "m", "p", "k"⟩] 0 0 1 (by decide)).1

/-- C1 counterexample to the "returns that reference's last error" part of
the claim as stated: with a server that always fails with
`Error.NotFound "nope"`, the failing reference's last error is
`Error.NotFound "nope"` (as `fetch_single` returns exactly that), yet
`fetch_all` returns the distinct generic `Error.MaxRetries` marker. -/
theorem fetch_all_not_last_error :
    fetch_all (fun _ _ => .error (Error.NotFound "nope")) "h" none
        [⟨none, "m", "p", "k"⟩] ⟨0, 0, 1⟩ = .error Error.MaxRetries
  ∧ fetch_single (fun _ => .error (Error.NotFound "nope")) "h" none ⟨none, "m", "p", "k"⟩ =
      .error (Error.NotFound "nope")
  ∧ Error.MaxRetries ≠ Error.NotFound "nope" := by
  refine ⟨by decide, by decide, by decide⟩

theorem exceptBind_ok {α β : Type} (a : α) (f : α → Except Error β) :
    ((Except.ok a : Except Error α) >>= f) = f a := rfl

theorem exceptBind_error {α β : Type} (e : Error) (f : α → Except Error β) :
    ((Except.error e : Except Error α) >>= f) = Except.error e := rfl

/-- C2: `fetch_single` attempts the schema-v2 fetch first - which consults
the server only at GET `{host}/v1/{mount}/data/{path}` and extracts
`.data.data.{key}` - and returns its result when it succeeds; on any v2
failure it falls back to the schema-v1 fetch - which consults the server
only at GET `{host}/v1/{mount}/{path}` and extracts `.data.{key}`; when the
v2 attempt fails and the v1 endpoint returns a document whose `.data.{key}`
is a string, `fetch_single` returns that v1 value without error; only when
both schema attempts fail does the reference fail (with the v1 error). -/
theorem fetch_single_v2_then_v1 (server : Request → Except Error Json)
    (host : String) (token : Option String) (s : SecretSpec) :
    (∀ server' : Request → Except Error Json,
      server' ⟨host ++ "/v1/" ++ s.mount ++ "/data/" ++ s.path, token⟩ =
          server ⟨host ++ "/v1/" ++ s.mount ++ "/data/" ++ s.path, token⟩ →
      fetch_single_v2 server' host token s = fetch_single_v2 server host token s)
  ∧ (∀ server' : Request → Except Error Json,
      server' ⟨host ++ "/v1/" ++ s.mount ++ "/" ++ s.path, token⟩ =
          server ⟨host ++ "/v1/" ++ s.mount ++ "/" ++ s.path, token⟩ →
      fetch_single_v1 server' host token s = fetch_single_v1 server host token s)
  ∧ (∀ v, fetch_single_v2 server host token s = .ok v →
      fetch_single server host token s = .ok v)
  ∧ (∀ e, fetch_single_v2 server host token s = .error e →
      fetch_single server host token s = fetch_single_v1 server host token s)
  ∧ (∀ e j jv str, fetch_single_v2 server host token s = .error e →
      server ⟨host ++ "/v1/" ++ s.mount ++ "/" ++ s.path, token⟩ = .ok j →
      (Json.get j "data").bind (fun d => Json.get d s.secret) = some jv →
      Json.as_str jv = some str →
      fetch_single server host token s = .ok ⟨SecretSpec.name s, str⟩)
  ∧ (∀ e₁ e₂, fetch_single_v2 server host token s = .error e₁ →
      fetch_single_v1 server host token s = .error e₂ →
      fetch_single server host token s = .error e₂) := by
  have hv1 : ∀ (j jv : Json) (str : String),
      server ⟨host ++ "/v1/" ++ s.mount ++ "/" ++ s.path, token⟩ = .ok j →
      (Json.get j "data").bind (fun d => Json.get d s.secret) = some jv →
      Json.as_str jv = some str →
      fetch_single_v1 server host token s = .ok ⟨SecretSpec.name s, str⟩ := by
    intro j jv str hsrv hget hstr
    obtain ⟨d, hd, hjv⟩ := Option.bind_eq_some.mp hget
    simp [fetch_single_v1, hsrv, hd, hjv, hstr, ofOption, exceptBind_ok, exceptBind_error]
  refine ⟨?_, ?_, ?_, ?_, ?_, ?_⟩
  · intro server' hsame
    simp only [fetch_single_v2, hsame]
  · intro server' hsame
    simp only [fetch_single_v1, hsame]
  · intro v h
    simp [fetch_single, h]
  · intro e h
    cases h1 : fetch_single_v1 server host token s <;> simp [fetch_single, h, h1]
  · intro e j jv str h hsrv hget hstr
    have := hv1 j jv str hsrv hget hstr
    simp [fetch_single, h, this]
  · intro e₁ e₂ h1 h2
    simp [fetch_single, h1, h2]

/-- Witness for `fetch_single_v2_then_v1`: a concrete server that fails the
v2 request and serves the v1 document; the fallback returns the v1 value. -/
theorem fetch_single_v2_then_v1_witness :
    fetch_single
        (fun r => if r.url = "h/v1/m/p"
          then .ok (Json.obj [("data", Json.obj [("k", Json.str "v")])])
          else .error (Error.Reqwest "404"))
        "h" none ⟨none, "m", "p", "k"⟩ =
      .ok ⟨SecretSpec.name ⟨none, "m", "p", "k"⟩, "v"⟩ :=
  (fetch_single_v2_then_v1
      (fun r => if r.url = "h/v1/m/p"
        then .ok (Json.obj [("data", Json.obj [("k", Json.str "v")])])
        else .error (Error.Reqwest "404"))
      "h" none ⟨none, "m", "p", "k"⟩).2.2.2.2.1
    (Error.Reqwest "404") (Json.obj [("data", Json.obj [("k", Json.str "v")])])
    (Json.str "v") "v" rfl rfl rfl rfl

/-- C4 (amended): for the Kubernetes auth method the service-account
token-file read happens inside the retried closure, so a failure to read the
file is retried per the retry policy exactly like a failure of the HTTP
login exchange: a file-read error makes that attempt fail with the
`Error.Io` error (first conjunct); when the read fails on every attempt the
whole policy is consumed - `retries + 1` attempts, a sleep after each - and
the generic `Error.MaxRetries` is returned (second conjunct); and any
per-attempt failure of `fetch_token_kubernetes` (file read or HTTP
exchange) exhausting the policy likewise yields `Error.MaxRetries` (third
conjunct). -/
theorem fetch_token_kubernetes_retries (readSa : Nat → Except Error String)
    (post : Nat → PostRequest → Except Error Json) (host role : String)
    (retries delay : Nat) :
    (∀ i e, readSa i = .error e →
      fetch_token_kubernetes (readSa i) (post i) host role = .error e)
  ∧ ((∀ i, i ≤ retries → ∃ e, readSa i = .error e) →
      fetch_token readSa post host (.Kubernetes role) ⟨retries, delay⟩ =
        ⟨.error Error.MaxRetries, retries + 1, List.replicate (retries + 1) delay⟩)
  ∧ ((∀ i, i ≤ retries → ∃ e, fetch_token_kubernetes (readSa i) (post i) host role = .error e) →
      (fetch_token readSa post host (.Kubernetes role) ⟨retries, delay⟩).result =
        .error Error.MaxRetries) := by
  have hprop : ∀ i e, readSa i = .error e →
      fetch_token_kubernetes (readSa i) (post i) host role = .error e := by
    intro i e h
    simp [fetch_token_kubernetes, h, exceptBind_error]
  refine ⟨hprop, ?_, ?_⟩
  · intro h
    show retry _ retries delay = _
    exact retryRun_exhaust _ delay (retries + 1) 0 fun k hk => by
      obtain ⟨e, he⟩ := h k (Nat.lt_succ_iff.mp hk)
      exact ⟨e, by simp [hprop k e he, Except.map]⟩
  · intro h
    have hex := retryRun_exhaust
      (fun i => (fetch_token_kubernetes (readSa i) (post i) host role).map some)
      delay (retries + 1) 0 fun k hk => by
        obtain ⟨e, he⟩ := h k (Nat.lt_succ_iff.mp hk)
        exact ⟨e, by simp [he, Except.map]⟩
    show (retryRun (fun i => (fetch_token_kubernetes (readSa i) (post i) host role).map some)
      delay 0 (retries + 1)).result = _
    rw [hex]

/-- Witness for `fetch_token_kubernetes_retries`: an always-failing file
read with one configured retry gives two attempts, two sleeps, and
`Error.MaxRetries`. -/
theorem fetch_token_kubernetes_retries_witness :
    fetch_token (fun _ => .error (Error.Io "unable to read file"))
        (fun _ _ => .ok Json.null) "h" (.Kubernetes "r") ⟨1, 5⟩ =
      ⟨.error Error.MaxRetries, 2, [5, 5]⟩ := by
  have h := (fetch_token_kubernetes_retries (fun _ => .error (Error.Io "unable to read file"))
    (fun _ _ => .ok Json.null) "h" "r" 1 5).2.1
    (fun i _ => ⟨Error.Io "unable to read file", rfl⟩)
  simpa using h

/-- C4 counterexample to the claim as stated: with a service-account token
file that cannot be read and `retries = 1`, the Kubernetes token fetch
performs two attempts - the file read is retried, not immediately fatal -
and returns the generic retries-exhausted error rather than failing fast
with the file-read error. -/
theorem fetch_token_kubernetes_fileread_retried :
    (fetch_token (fun _ => .error (Error.Io "unable to read file /var/run/secrets/kubernetes.io/serviceaccount/token"))
        (fun _ _ => .ok Json.null) "h" (.Kubernetes "r") ⟨1, 5⟩).attempts = 2
  ∧ (fetch_token (fun _ => .error (Error.Io "unable to read file /var/run/secrets/kubernetes.io/serviceaccount/token"))
        (fun _ _ => .ok Json.null) "h" (.Kubernetes "r") ⟨1, 5⟩).result =
      .error Error.MaxRetries
  ∧ (2 : Nat) ≠ 1 := ⟨rfl, rfl, by decide⟩

/-! Helper lemmas relating the parser loop to the per-line outcome `lineError`. -/

theorem parseGo_cons_error (lc : Nat) (line : String) (rest : List String) (msg : String)
    (h : lineError line = some msg) :
    parseGo lc (line :: rest) = .error (Error.Parse msg (lc + 1) line) := by
  rw [lineError] at h
  rw [parseGo]
  by_cases hb : blankLine line
  · simp [hb] at h
  · simp only [hb, Bool.false_eq_true, if_false] at h ⊢
    cases hr : regexCaptures line with
    | none =>
      simp only [hr] at h ⊢
      injection h with h'
      subst h'
      rfl
    | some caps =>
      simp only [hr] at h ⊢
      cases hn : nameError caps.name with
      | some m =>
        simp only [hn] at h ⊢
        injection h with h'
        subst h'
        rfl
      | none =>
        simp only [hn] at h ⊢
        by_cases hm : caps.mount.data.isEmpty
        · simp only [hm, if_true] at h ⊢
          injection h with h'
          subst h'
          rfl
        · simp only [hm, Bool.false_eq_true, if_false] at h ⊢
          by_cases hp : caps.path.data.isEmpty
          · simp only [hp, if_true] at h ⊢
            injection h with h'
            subst h'
            rfl
          · simp only [hp, Bool.false_eq_true, if_false] at h ⊢
            by_cases hs : caps.secret.data.isEmpty
            · simp only [hs, if_true] at h ⊢
              injection h with h'
              subst h'
              rfl
            · simp only [hs, Bool.false_eq_true, if_false] at h ⊢
              cases h

theorem parseGo_cons_blank (lc : Nat) (line : String) (rest : List String)
    (hb : blankLine line = true) :
    parseGo lc (line :: rest) = parseGo (lc + 1) rest := by
  rw [parseGo, if_pos hb]

theorem parseGo_cons_ok (lc : Nat) (line : String) (rest : List String)
    (h : lineError line = none) (hb : blankLine line = false) :
    ∃ caps, regexCaptures line = some caps ∧
      parseGo lc (line :: rest) =
        match parseGo (lc + 1) rest with
        | .ok specs => .ok (⟨caps.name, caps.mount, caps.path, caps.secret⟩ :: specs)
        | .error e => .error e := by
  rw [lineError] at h
  simp only [hb, Bool.false_eq_true, if_false] at h
  cases hr : regexCaptures line with
  | none => simp [hr] at h
  | some caps =>
    refine ⟨caps, rfl, ?_⟩
    simp only [hr] at h
    rw [parseGo]
    simp only [hb, Bool.false_eq_true, if_false, hr]
    cases hn : nameError caps.name with
    | some m => simp [hn] at h
    | none =>
      simp only [hn] at h ⊢
      by_cases hm : caps.mount.data.isEmpty
      · simp [hm] at h
      · simp only [hm, Bool.false_eq_true, if_false] at h ⊢
        by_cases hp : caps.path.data.isEmpty
        · simp [hp] at h
        · simp only [hp, Bool.false_eq_true, if_false] at h ⊢
          by_cases hs : caps.secret.data.isEmpty
          · simp [hs] at h
          · simp only [hs, Bool.false_eq_true, if_false]


theorem parseGo_ok_of_clean :
    ∀ (lines : List String) (lc : Nat),
      (lines.all fun l => (lineError l).isNone) = true →
      ∃ specs, parseGo lc lines = .ok specs := by
  intro lines
  induction lines with
  | nil => intro lc _; exact ⟨[], rfl⟩
  | cons hd tl ih =>
    intro lc hall
    rw [List.all_cons, Bool.and_eq_true] at hall
    obtain ⟨hhd, htl⟩ := hall
    have hhd' : lineError hd = none := Option.isNone_iff_eq_none.mp hhd
    by_cases hb : blankLine hd
    · rw [parseGo_cons_blank lc hd tl hb]
      exact ih (lc + 1) htl
    · have hb' : blankLine hd = false := by simpa using hb
      obtain ⟨caps, hr, heq⟩ := parseGo_cons_ok lc hd tl hhd' hb'
      obtain ⟨specs, hs⟩ := ih (lc + 1) htl
      rw [heq, hs]
      exact ⟨_, rfl⟩

theorem parseGo_first_error :
    ∀ (lines : List String) (lc i : Nat) (line msg : String),
      lines.get? i = some line → lineError line = some msg →
      ((lines.take i).all fun l => (lineError l).isNone) = true →
      parseGo lc lines = .error (Error.Parse msg (lc + i + 1) line) := by
  intro lines
  induction lines with
  | nil => intro lc i line msg hget _ _; simp at hget
  | cons hd tl ih =>
    intro lc i line msg hget herr hclean
    cases i with
    | zero =>
      have hhd : hd = line := by simpa using hget
      subst hhd
      exact parseGo_cons_error lc hd tl msg herr
    | succ n =>
      have hget' : tl.get? n = some line := by simpa using hget
      have hcleancons : ((hd :: tl.take n).all fun l => (lineError l).isNone) = true := by
        simpa using hclean
      rw [List.all_cons, Bool.and_eq_true] at hcleancons
      obtain ⟨hhd, htl⟩ := hcleancons
      have hhd' : lineError hd = none := Option.isNone_iff_eq_none.mp hhd
      have hidx : lc + (n + 1) + 1 = lc + 1 + n + 1 := by omega
      rw [hidx]
      by_cases hb : blankLine hd
      · rw [parseGo_cons_blank lc hd tl hb]
        exact ih (lc + 1) n line msg hget' herr htl
      · have hb' : blankLine hd = false := by simpa using hb
        obtain ⟨caps, hr, heq⟩ := parseGo_cons_ok lc hd tl hhd' hb'
        rw [heq, ih (lc + 1) n line msg hget' herr htl]

theorem parseGo_error_inv :
    ∀ (lines : List String) (lc : Nat) (e : Error), parseGo lc lines = .error e →
      ∃ i line msg, lines.get? i = some line ∧ lineError line = some msg ∧
        e = Error.Parse msg (lc + i + 1) line ∧
        ((lines.take i).all fun l => (lineError l).isNone) = true := by
  intro lines
  induction lines with
  | nil => intro lc e h; simp [parseGo] at h
  | cons hd tl ih =>
    intro lc e h
    cases hle : lineError hd with
    | some msg =>
      rw [parseGo_cons_error lc hd tl msg hle] at h
      injection h with h'
      exact ⟨0, hd, msg, rfl, hle, h'.symm, by simp⟩
    | none =>
      have hhd : (lineError hd).isNone = true := by simp [hle]
      by_cases hb : blankLine hd
      · rw [parseGo_cons_blank lc hd tl hb] at h
        obtain ⟨i, line, msg, hget, herr, heq, hclean⟩ := ih (lc + 1) e h
        refine ⟨i + 1, line, msg, by simpa using hget, herr, ?_, ?_⟩
        · rw [heq]
          congr 1
          omega
        · simp [List.take_succ_cons, List.all_cons, hhd, hclean]
      · have hb' : blankLine hd = false := by simpa using hb
        obtain ⟨caps, hr, heq⟩ := parseGo_cons_ok lc hd tl hle hb'
        rw [heq] at h
        cases hrec : parseGo (lc + 1) tl with
        | ok specs => rw [hrec] at h; simp at h
        | error e' =>
          rw [hrec] at h
          have he : e' = e := by injection h with h2
          subst he
          obtain ⟨i, line, msg, hget, herr, heq2, hclean⟩ := ih (lc + 1) e' hrec
          refine ⟨i + 1, line, msg, by simpa using hget, herr, ?_, ?_⟩
          · rw [heq2]
            congr 1
            omega
          · simp [List.take_succ_cons, List.all_cons, hhd, hclean]

/-- C6: `parse` processes the lines of its input in order; empty and
whitespace-only lines are skipped without error (when every line is clean,
parsing succeeds); it fails on the first invalid line, reporting the
1-based line number and the line text and producing no partial result (the
returned value is an error, nothing else); every error it returns is the
per-line error of the first invalid line.  The concrete conjuncts exhibit
the distinct failures: explicit ENVNAME starting with a digit, empty MOUNT,
empty PATH, empty KEY, and an unparsable line - each reported with its
1-based line number and line text - and blank-line skipping, including a
line of only the non-obvious whitespace characters U+000B (vertical tab),
U+000C (form feed) and U+00A0 (no-break space), all in Unicode White_Space
and hence skipped. -/
theorem parse_reports_first_invalid_line (contents : String) :
    (((rustLines contents).all fun l => (lineError l).isNone) = true →
      ∃ specs, parse contents = .ok specs)
  ∧ (∀ i line msg, (rustLines contents).get? i = some line → lineError line = some msg →
      (((rustLines contents).take i).all fun l => (lineError l).isNone) = true →
      parse contents = .error (Error.Parse msg (i + 1) line))
  ∧ (∀ e, parse contents = .error e →
      ∃ i line msg, (rustLines contents).get? i = some line ∧ lineError line = some msg ∧
        e = Error.Parse msg (i + 1) line ∧
        (((rustLines contents).take i).all fun l => (lineError l).isNone) = true)
  ∧ parse "9X=m/p#k" = .error (Error.Parse "env vars must not start with a number" 1 "9X=m/p#k")
  ∧ parse "/p#k" = .error (Error.Parse "mount cannot be empty" 1 "/p#k")
  ∧ parse "m/#k" = .error (Error.Parse "path cannot be empty" 1 "m/#k")
  ∧ parse "m/p#" = .error (Error.Parse "secret cannot be empty" 1 "m/p#")
  ∧ parse "no match" = .error (Error.Parse "unable to parse line" 1 "no match")
  ∧ parse " \t \n\nm/p#k" = .ok [⟨none, "m", "p", "k"⟩]
  ∧ parse "\x0B\x0C\u00A0\nm/p#k" = .ok [⟨none, "m", "p", "k"⟩] := by
  refine ⟨?_, ?_, ?_, by decide, by decide, by decide, by decide, by decide, by decide,
    by decide⟩
  · intro h
    exact parseGo_ok_of_clean (rustLines contents) 0 h
  · intro i line msg hget herr hclean
    have h := parseGo_first_error (rustLines contents) 0 i line msg hget herr hclean
    simpa using h
  · intro e herr
    obtain ⟨i, line, msg, h1, h2, h3, h4⟩ := parseGo_error_inv (rustLines contents) 0 e herr
    exact ⟨i, line, msg, h1, h2, by simpa using h3, h4⟩

/-- Witness for `parse_reports_first_invalid_line`: a two-line input whose
second line is invalid fails with the 1-based line number 2 and that line's
text. -/
theorem parse_reports_first_invalid_line_witness :
    parse "m/p#k\n;;" = .error (Error.Parse "unable to parse line" 2 ";;") :=
  (parse_reports_first_invalid_line "m/p#k\n;;").2.1 1 ";;" "unable to parse line"
    (by decide) (by decide) (by decide)

/-- C5 counterexample: the KEY capture `.*` admits non-ASCII characters,
and Rust `char::is_alphanumeric 'é'` is true (U+00E9 is a Unicode lowercase
letter), so on the - accepted - line `m/p#é` the program derives the name
`P_é`: `to_ascii_uppercase` leaves `é` unchanged.  `SecretSpec.nameWith` is
instantiated here at a concrete predicate that agrees with Rust's on every
character of this input (ASCII plus `é`); the claimed character transform
instead yields `P_É` (alphanumeric taken to uppercase) - or `P__` were
`é` not counted alphanumeric - and the program's name differs from both. -/
theorem derived_name_nonascii_key :
    parse "m/p#é" = .ok [⟨none, "m", "p", "é"⟩]
  ∧ SecretSpec.nameWith (fun c => c.isAlphanum || c = 'é') ⟨none, "m", "p", "é"⟩ = "P_é"
  ∧ Char.toUpper 'é' = 'é'
  ∧ ("P_é" : String) ≠ "P_É"
  ∧ ("P_é" : String) ≠ "P__" := by decide

/-- C5 (amended): `parse "mount/path#key"` yields exactly one reference with
`mount="mount"`, `path="path"`, `key="key"` and no explicit name; that
reference's derived name is `"PATH_KEY"`; and for every reference without
an explicit name whose path and key are ASCII, the derived name - for any
embedding of `char::is_alphanumeric`, constrained only to agree with the
ASCII alphanumeric predicate on ASCII, as Rust's does - is the
concatenation of path and key, each transformed character-by-character
(alphanumeric to uppercase, any other character to an underscore), joined
by a single underscore (`derivedNameSpec`, written from the spec's words).
For a non-ASCII alphanumeric key character the program instead keeps the
character unchanged (see `derived_name_nonascii_key`). -/
theorem parse_single_line_and_derived_name :
    parse "mount/path#key" = .ok [⟨none, "mount", "path", "key"⟩]
  ∧ SecretSpec.name ⟨none, "mount", "path", "key"⟩ = "PATH_KEY"
  ∧ ∀ isAlnum : Char → Bool, (∀ c : Char, c.toNat < 128 → isAlnum c = c.isAlphanum) →
      ∀ s : SecretSpec, s.name? = none →
      (s.path.data.all fun c => c.toNat < 128) = true →
      (s.secret.data.all fun c => c.toNat < 128) = true →
      SecretSpec.nameWith isAlnum s = derivedNameSpec s.path s.secret := by
  refine ⟨by decide, by decide, ?_⟩
  intro isAlnum hascii s h hp hk
  obtain ⟨n, m, p, k⟩ := s
  simp only at h
  subst h
  have hmap : ∀ l : List Char, (l.all fun c => c.toNat < 128) = true →
      (l.map fun c => if isAlnum c then c.toUpper else '_') = l.map specTransform := by
    intro l hl
    apply List.map_congr_left
    intro c hc
    have hc128 : c.toNat < 128 := by
      have := List.all_eq_true.mp hl c hc
      exact of_decide_eq_true this
    rw [hascii c hc128]
    rfl
  show String.mk (p.data.map fun c => if isAlnum c then c.toUpper else '_')
      ++ "_" ++ String.mk (k.data.map fun c => if isAlnum c then c.toUpper else '_')
    = String.mk (p.data.map specTransform) ++ "_" ++ String.mk (k.data.map specTransform)
  rw [hmap p.data hp, hmap k.data hk]

/-- Witness for `parse_single_line_and_derived_name` at the ASCII
instantiation and a concrete nameless reference with punctuation in path
and key. -/
theorem parse_single_line_and_derived_name_witness :
    SecretSpec.nameWith Char.isAlphanum ⟨none, "mnt", "a-b", "c.d"⟩ =
      derivedNameSpec "a-b" "c.d" :=
  parse_single_line_and_derived_name.2.2 Char.isAlphanum (fun _ _ => rfl)
    ⟨none, "mnt", "a-b", "c.d"⟩ rfl (by decide) (by decide)

/-- C9 counterexample: on the line `=mount/path#key` the ENVNAME capture is
present but empty, and `parse` does not succeed with a derived name - the
claimed result - but fails. -/
theorem parse_empty_capture_not_derive :
    parse "=mount/path#key" ≠ .ok [⟨none, "mount", "path", "key"⟩]
  ∧ regexCaptures "=mount/path#key" =
      some ⟨some "", "mount", "path", "key"⟩ := by decide

/-- C9 (amended): a line whose ENVNAME capture is present but empty is
rejected with the distinct parse error "name cannot be empty" (1-based line
number and line text included), rather than being treated as a request to
derive the name. -/
theorem parse_empty_capture_errors :
    parse "=mount/path#key" =
      .error (Error.Parse "name cannot be empty" 1 "=mount/path#key") := by decide

/-- C10 counterexample: in the claim's own example line `1a/b#c` the digit
lands in MOUNT, not PATH (`mount="1a"`, `path="b"`), and the derived name is
`"B_C"`, which does not begin with a digit - so that line does not exhibit
the claimed behaviour. -/
theorem derived_name_example_digit_in_mount :
    parse "1a/b#c" = .ok [⟨none, "1a", "b", "c"⟩]
  ∧ SecretSpec.name ⟨none, "1a", "b", "c"⟩ = "B_C"
  ∧ Char.isDigit 'B' = false := by decide

/-- C10 (amended): the non-digit-start rule is enforced only on explicit
names: for every reference without an explicit ENVNAME whose PATH begins
with a digit (e.g. `m/1b#c`, where `path="1b"`), the derived name begins
with that same digit, so it violates the POSIX rule that explicit names are
checked against - the last conjunct runs the explicit-name check on the
derived name and it reports the digit error. -/
theorem derived_name_digit_start (s : SecretSpec) (d : Char) (h : s.name? = none)
    (hd : s.path.data.head? = some d)
    (hdig : d ∈ ['0', '1', '2', '3', '4', '5', '6', '7', '8', '9']) :
    (SecretSpec.name s).data.head? = some d
  ∧ parse "m/1b#c" = .ok [⟨none, "m", "1b", "c"⟩]
  ∧ SecretSpec.name ⟨none, "m", "1b", "c"⟩ = "1B_C"
  ∧ nameError (some (SecretSpec.name s)) = some "env vars must not start with a number" := by
  obtain ⟨n, m, p, k⟩ := s
  simp only at h
  subst h
  obtain ⟨cs⟩ := p
  cases cs with
  | nil => simp at hd
  | cons a tl =>
    have had : a = d := by simpa using hd
    subst had
    have hhead : (SecretSpec.name ⟨none, m, ⟨a :: tl⟩, k⟩).data.head? =
        some (if a.isAlphanum then a.toUpper else '_') := by
      simp [SecretSpec.name, SecretSpec.nameWith, String.data_append]
    have hch : (if a.isAlphanum then a.toUpper else '_') = a ∧ a.isDigit = true := by
      fin_cases hdig <;> exact ⟨by decide, by decide⟩
    refine ⟨by rw [hhead, hch.1], by decide, by decide, ?_⟩
    rw [nameError, hhead, hch.1]
    simp [hch.2]

/-- Witness for `derived_name_digit_start` at a concrete reference with no
explicit name and a path starting with the digit 7. -/
theorem derived_name_digit_start_witness :
    (SecretSpec.name ⟨none, "mm", "7x", "k"⟩).data.head? = some '7' :=
  (derived_name_digit_start ⟨none, "mm", "7x", "k"⟩ '7' rfl rfl (by decide)).1

/-! Helper lemmas about the environment construction of `spawn`. -/

theorem addSecrets_spec :
    ∀ (secrets : List Secret) (c_env warns : List String),
      addSecrets c_env warns secrets =
        (c_env ++ secrets.map (fun s => s.name ++ "=" ++ s.secret),
         warns ++ warnedNames c_env secrets) := by
  intro secrets
  induction secrets with
  | nil => intro c_env warns; simp [addSecrets, warnedNames]
  | cons s rest ih =>
    intro c_env warns
    simp only [addSecrets, warnedNames]
    cases hc : c_env.any fun e => e = s.name ++ "=" ++ s.secret with
    | true =>
      rw [ih]
      simp [List.append_assoc]
    | false =>
      rw [ih]
      simp [List.append_assoc]

/-- C7 (amended): with `clear_env = true` the environment handed to the
child is exactly the secrets' `name=value` entries, in order, nothing
inherited; with `clear_env = false` it is a full copy of the current
environment's entries followed by the secrets' entries; entries of the base
environment are never removed or replaced - a secret with an existing name
is appended as a second entry, so duplicate names remain duplicated (no
last-one-wins collapse in the vector) - and an overwrite warning is emitted
for a secret exactly as described by `warnedNames`: only when an identical
`name=value` string is already present, not when merely the name exists. -/
theorem spawnEnv_appends_and_warns (env : List (String × String))
    (secrets : List Secret) (clear : Bool) :
    (spawnEnv env secrets ⟨true⟩).1 = secrets.map (fun s => s.name ++ "=" ++ s.secret)
  ∧ (spawnEnv env secrets ⟨false⟩).1 =
      env.map (fun kv => kv.1 ++ "=" ++ kv.2)
        ++ secrets.map (fun s => s.name ++ "=" ++ s.secret)
  ∧ (∀ v, v ∈ env.map (fun kv => kv.1 ++ "=" ++ kv.2) →
      v ∈ (spawnEnv env secrets ⟨false⟩).1)
  ∧ (spawnEnv env secrets ⟨clear⟩).2 =
      warnedNames (if clear then [] else env.map fun kv => kv.1 ++ "=" ++ kv.2) secrets := by
  refine ⟨?_, ?_, ?_, ?_⟩
  · rw [spawnEnv, addSecrets_spec]
    simp
  · rw [spawnEnv, addSecrets_spec]
    simp
  · intro v hv
    rw [spawnEnv, addSecrets_spec]
    simp only
    exact List.mem_append.mpr (Or.inl (by simpa using hv))
  · cases clear with
    | true =>
      rw [spawnEnv, addSecrets_spec]
      simp
    | false =>
      rw [spawnEnv, addSecrets_spec]
      simp

/-- Witness for `spawnEnv_appends_and_warns`: an inherited entry is still
present after the secrets are added. -/
theorem spawnEnv_appends_and_warns_witness :
    "A=1" ∈ (spawnEnv [("A", "1")] [⟨"B", "2"⟩] ⟨false⟩).1 :=
  (spawnEnv_appends_and_warns [("A", "1")] [⟨"B", "2"⟩] false).2.2.1 "A=1" (by decide)

/-- C7 counterexample to the claim as stated: the base environment holds
`A=1` and the resolved secret is `A=2` - a variable of that name exists - yet
no warning is emitted (the warning comparison is on the whole `name=value`
string) and the variable is not overwritten: `A=1` stays in the vector and
`A=2` is appended after it.  Likewise two resolved secrets named `A` do not
collapse last-one-wins: both entries are present. -/
theorem spawnEnv_no_overwrite_no_warning :
    spawnEnv [("A", "1")] [⟨"A", "2"⟩] ⟨false⟩ = (["A=1", "A=2"], [])
  ∧ spawnEnv [] [⟨"A", "1"⟩, ⟨"A", "2"⟩] ⟨true⟩ = (["A=1", "A=2"], []) := by decide

/-! Helper lemma for the Debug masking. -/

theorem map_const_star : ∀ l : List Char,
    l.map (fun _ => '*') = List.replicate l.length '*' := by
  intro l
  induction l with
  | nil => rfl
  | cons a tl ih => simp [List.replicate_succ, ih]

/-- C8 (amended): the Debug rendering of a resolved secret shows the value
as a run of mask characters of length equal to the value, and depends on
the value only through its length - two secrets with the same name and
equal-length values render identically - so the rendering never reveals the
value (though, as the counterexample shows, a value consisting of mask
characters is literally contained in its own mask). -/
theorem secret_debug_masked (s t : Secret) (hn : s.name = t.name)
    (hl : s.secret.data.length = t.secret.data.length) :
    secret_obfuscated s = String.mk (List.replicate s.secret.data.length '*')
  ∧ debugFmt s = debugFmt t := by
  constructor
  · rw [secret_obfuscated, map_const_star]
  · rw [debugFmt, debugFmt, secret_obfuscated, secret_obfuscated, hn,
      map_const_star, map_const_star, hl]

/-- Witness for `secret_debug_masked`: secrets with distinct equal-length
values have identical Debug output. -/
theorem secret_debug_masked_witness :
    debugFmt ⟨"n", "ab"⟩ = debugFmt ⟨"n", "xy"⟩ :=
  (secret_debug_masked ⟨"n", "ab"⟩ ⟨"n", "xy"⟩ rfl rfl).2

/-- C8 counterexample to the "never contains the literal value" part of the
claim as stated: for the value `"*"` the mask has the same single mask
character, so the Debug output does contain the literal value as a
substring. -/
theorem secret_debug_contains_star_value :
    List.IsInfix "*".data (debugFmt ⟨"n", "*"⟩).data
  ∧ secret_obfuscated ⟨"n", "*"⟩ = "*" := by
  constructor
  · decide
  · rfl

end Vaultify
